import Mathlib

/-!
Verification of the numeric kernels of the `PythonPerformance` notebook:
the Monte Carlo π estimator (naive loop, vectorized and numba variants),
the Lorenz vector field, and the ODE-integration invocation.

Floating-point arithmetic is embedded as exact real arithmetic, and the
stream of uniform random draws in [0,1) produced by `np.random.random()` /
`rand()` is an explicit parameter `g : ℕ → ℝ`, consumed in call order
(the naive loop consumes `g (2*i)` for `x` and `g (2*i+1)` for `y` in
iteration `i`; the vectorized variant fills its `(nMC, 2)` random matrix
from the same stream in row-major order, so row `i` is the same pair).
Python raises `ZeroDivisionError` on the final division when `nMC = 0`;
the embedding returns `none` in that case. The values printed to standard
output by a variant are collected in an explicit output list.
-/

namespace PythonPerformance

/-- The observable behavior of one `estimate_pi` call: the returned value
(`none` when the final division fails) and the list of integers printed to
standard output before returning. -/
structure RunResult where
  value : Option ℝ
  output : List ℕ

/-- The circle radius, fixed to `1.` in every variant of `estimate_pi`. -/
noncomputable def radius : ℝ := 1

/-- The side of the sampling square: `diameter = 2.*radius`. -/
noncomputable def diameter : ℝ := 2 * radius

/-- The `x` coordinate sampled in iteration `i`:
`x = (np.random.random()-0.5)*diameter`, the draw being element `2*i` of
the stream. -/
noncomputable def sampleX (g : ℕ → ℝ) (i : ℕ) : ℝ := (g (2 * i) - 0.5) * diameter

/-- The `y` coordinate sampled in iteration `i`:
`y = (np.random.random()-0.5)*diameter`, the draw being element `2*i+1` of
the stream. -/
noncomputable def sampleY (g : ℕ → ℝ) (i : ℕ) : ℝ := (g (2 * i + 1) - 0.5) * diameter

/-- The value of `n_circle` after `n` iterations of the naive loop: each
iteration computes `r = np.sqrt(x**2 + y**2)` and increments the counter
when `r <= radius`. -/
noncomputable def countCircle (g : ℕ → ℝ) : ℕ → ℕ
  | 0 => 0
  | n + 1 =>
      countCircle g n +
        (if Real.sqrt (sampleX g n ^ 2 + sampleY g n ^ 2) ≤ radius then 1 else 0)

/-- The naive-loop `estimate_pi(nMC)`: runs the loop, then returns
`4.*n_circle/nMC`; the division fails when `nMC = 0`. It prints nothing. -/
noncomputable def estimate_pi (nMC : ℕ) (g : ℕ → ℝ) : RunResult :=
  ⟨if nMC = 0 then none else some (4 * (countCircle g nMC : ℝ) / nMC), []⟩

/-- The `(nMC, 2)` matrix `xy = (np.random.random((nMC,2))-0.5) * diameter`
of the vectorized variant, row `i` holding the scaled draws `2*i` and
`2*i+1` of the stream. -/
noncomputable def xyMatrix (nMC : ℕ) (g : ℕ → ℝ) : List (ℝ × ℝ) :=
  (List.range nMC).map fun i =>
    ((g (2 * i) - 0.5) * diameter, (g (2 * i + 1) - 0.5) * diameter)

/-- The row-wise norms `r = np.sqrt((xy**2).sum(axis=1))` of the vectorized
variant. -/
noncomputable def rValues (nMC : ℕ) (g : ℕ → ℝ) : List ℝ :=
  (xyMatrix nMC g).map fun p => Real.sqrt (p.1 ^ 2 + p.2 ^ 2)

/-- The vectorized variant's `n_circle = r[circle_mask].shape[0]` where
`circle_mask = r <= radius`. -/
noncomputable def n_circle_vec (nMC : ℕ) (g : ℕ → ℝ) : ℕ :=
  ((rValues nMC g).filter fun r => decide (r ≤ radius)).length

/-- The vectorized `estimate_pi(nMC)`: computes `n_circle` from the mask,
prints it (`print(n_circle)` runs before the final division, so the output
happens even when the division fails), then returns `4.*n_circle/nMC`. -/
noncomputable def estimate_pi_vec (nMC : ℕ) (g : ℕ → ℝ) : RunResult :=
  ⟨if nMC = 0 then none else some (4 * (n_circle_vec nMC g : ℝ) / nMC),
    [n_circle_vec nMC g]⟩

/-- The loop counter of the `@numba.njit` variant, whose body is textually
identical to the naive loop. -/
noncomputable def countCircleNumba (g : ℕ → ℝ) : ℕ → ℕ
  | 0 => 0
  | n + 1 =>
      countCircleNumba g n +
        (if Real.sqrt (sampleX g n ^ 2 + sampleY g n ^ 2) ≤ radius then 1 else 0)

/-- The `@numba.njit` `estimate_pi(nMC)`: same body as the naive loop,
no output. -/
noncomputable def estimate_pi_numba (nMC : ℕ) (g : ℕ → ℝ) : RunResult :=
  ⟨if nMC = 0 then none else some (4 * (countCircleNumba g nMC : ℝ) / nMC), []⟩

/-- The Python Lorenz vector field
`lorenz(u, t, sigma, rho, beta) = [sigma*(y-x), x*(rho-z)-y, x*y-beta*z]`
with `x, y, z = u`; the 3-element result list is embedded as a triple. -/
noncomputable def lorenz (u : ℝ × ℝ × ℝ) (t : ℝ) (sigma rho beta : ℝ) : ℝ × ℝ × ℝ :=
  (sigma * (u.2.1 - u.1), u.1 * (rho - u.2.2) - u.2.1, u.1 * u.2.1 - beta * u.2.2)

/-- The Lorenz field as a function of the parameter triple
`p = (sigma, rho, beta)`. -/
noncomputable def lorenzP (u : ℝ × ℝ × ℝ) (t : ℝ) (p : ℝ × ℝ × ℝ) : ℝ × ℝ × ℝ :=
  lorenz u t p.1 p.2.1 p.2.2

/-- The Julia in-place Lorenz field `f(du,u,p,t)`: it unpacks
`x, y, z = u[1], u[2], u[3]` and `sigma, rho, beta = p[1], p[2], p[3]` and
assigns the three components of `du`; the final content of `du` is embedded
as the returned triple. -/
noncomputable def juliaF (u : ℝ × ℝ × ℝ) (p : ℝ × ℝ × ℝ) (t : ℝ) : ℝ × ℝ × ℝ :=
  let x := u.1
  let y := u.2.1
  let z := u.2.2
  let sigma := p.1
  let rho := p.2.1
  let beta := p.2.2
  (sigma * (y - x), x * (rho - z) - y, x * y - beta * z)

/-- Count of sampled points landing inside the inscribed circle, stated the
way the spec states it: the point of iteration `i` is within distance
`radius` of the origin exactly when `x_i^2 + y_i^2 ≤ radius^2`. -/
noncomputable def specCount (nMC : ℕ) (g : ℕ → ℝ) : ℕ :=
  ((Finset.range nMC).filter fun i =>
    sampleX g i ^ 2 + sampleY g i ^ 2 ≤ radius ^ 2).card

/-- The estimate the spec contract prescribes: the fraction of the `nMC`
sampled points landing within the inscribed circle, scaled by 4. -/
noncomputable def spec_estimate (nMC : ℕ) (g : ℕ → ℝ) : ℝ :=
  4 * (specCount nMC g : ℝ) / nMC

/-- Count of iterations whose sampled point satisfies
`sqrt(x^2 + y^2) ≤ 1`, the common membership test of the naive and
vectorized variants (`radius = 1`). -/
noncomputable def countSqrtLe (nMC : ℕ) (g : ℕ → ℝ) : ℕ :=
  ((Finset.range nMC).filter fun i =>
    Real.sqrt (sampleX g i ^ 2 + sampleY g i ^ 2) ≤ 1).card

/-- Modelled from the spec: the ODE solvers invoked by the notebook
(scipy `odeint`, DifferentialEquations.jl `solve` via `diffeqpy`) are
external library code not present in this repository. Per the spec
contract — "given the vector field, an initial state, a time span,
parameter values, and accuracy tolerances ... produce a trajectory: an
ordered sequence of state vectors at requested sample times" — the solver
is modelled as an explicit one-step integration scheme marching along the
sample-time grid; the tolerance arguments are carried but the modelled
scheme takes exactly one step per grid interval. -/
noncomputable def integrateSteps (field : (ℝ × ℝ × ℝ) → ℝ → ℝ × ℝ × ℝ) :
    (ℝ × ℝ × ℝ) → ℝ → List ℝ → List (ℝ × ℝ × ℝ)
  | _, _, [] => []
  | u, t0, t1 :: rest =>
      let u1 := u + (t1 - t0) • field u t0
      u1 :: integrateSteps field u1 t1 rest

/-- Modelled from the spec: the trajectory the external solver reports at
the sample times of the grid (the state at the first grid time is the
initial state itself), given relative and absolute tolerances. -/
noncomputable def odeintModel (field : (ℝ × ℝ × ℝ) → ℝ → ℝ × ℝ × ℝ)
    (u0 : ℝ × ℝ × ℝ) (tgrid : List ℝ) (rtol atol : ℝ) : List (ℝ × ℝ × ℝ) :=
  match tgrid with
  | [] => []
  | t0 :: rest => u0 :: integrateSteps field u0 t0 rest

/-- Membership test of every variant, recast without the square root: for
any point, `sqrt(x^2+y^2) <= radius` holds exactly when
`x^2+y^2 <= radius^2`. -/
lemma sqrt_le_radius_iff (x y : ℝ) :
    Real.sqrt (x ^ 2 + y ^ 2) ≤ radius ↔ x ^ 2 + y ^ 2 ≤ radius ^ 2 :=
  Real.sqrt_le_left (by norm_num [radius])

/-- The naive loop counter agrees with the spec-side count of points inside
the circle. -/
lemma countCircle_eq_specCount (g : ℕ → ℝ) (n : ℕ) :
    countCircle g n = specCount n g := by
  induction n with
  | zero => rfl
  | succ m ih =>
      rw [countCircle, ih, specCount, specCount, Finset.range_succ, Finset.filter_insert]
      by_cases hm : sampleX g m ^ 2 + sampleY g m ^ 2 ≤ radius ^ 2
      · rw [if_pos hm, if_pos ((sqrt_le_radius_iff _ _).mpr hm),
          Finset.card_insert_of_not_mem (by simp)]
      · rw [if_neg hm, if_neg fun hc => hm ((sqrt_le_radius_iff _ _).mp hc), add_zero]

/-- The naive loop counter agrees with the count of iterations passing the
literal `sqrt(x^2+y^2) <= 1` test. -/
lemma countCircle_eq_countSqrtLe (g : ℕ → ℝ) (n : ℕ) :
    countCircle g n = countSqrtLe n g := by
  induction n with
  | zero => rfl
  | succ m ih =>
      rw [countCircle, ih, countSqrtLe, countSqrtLe, Finset.range_succ, Finset.filter_insert]
      by_cases hm : Real.sqrt (sampleX g m ^ 2 + sampleY g m ^ 2) ≤ 1
      · rw [if_pos hm, if_pos (show _ ≤ radius from hm),
          Finset.card_insert_of_not_mem (by simp)]
      · rw [if_neg hm, if_neg (show ¬ _ ≤ radius from hm), add_zero]

/-- The numba counter is the naive counter. -/
lemma countCircleNumba_eq (g : ℕ → ℝ) (n : ℕ) :
    countCircleNumba g n = countCircle g n := by
  induction n with
  | zero => rfl
  | succ m ih => rw [countCircleNumba, countCircle, ih]

/-- The vectorized mask count agrees with the naive loop counter on the
same draw stream. -/
lemma n_circle_vec_eq_countCircle (nMC : ℕ) (g : ℕ → ℝ) :
    n_circle_vec nMC g = countCircle g nMC := by
  induction nMC with
  | zero => rfl
  | succ m ih =>
      rw [countCircle, ← ih]
      unfold n_circle_vec rValues xyMatrix
      rw [List.range_succ, List.map_append, List.map_append, List.filter_append,
        List.length_append]
      congr 1
      simp only [List.filter_singleton, sampleX, sampleY, decide_eq_true_eq]
      by_cases hm :
        Real.sqrt (((g (2 * m) - 0.5) * diameter) ^ 2 +
          ((g (2 * m + 1) - 0.5) * diameter) ^ 2) ≤ radius
      · simp [hm]
      · simp [hm]

/-- The naive loop counter never exceeds the iteration count. -/
lemma countCircle_le (g : ℕ → ℝ) (n : ℕ) : countCircle g n ≤ n := by
  induction n with
  | zero => exact le_rfl
  | succ m ih =>
      rw [countCircle]
      split
      · omega
      · omega

/-- Constant draw stream: every uniform draw is `0.5`, so every sampled
point is the center of the square. -/
noncomputable def gHalf : ℕ → ℝ := fun _ => 0.5

/-- Draw stream whose first iteration samples the boundary point
`(-1, 0)`: draw 0 is `0` and every later draw is `0.5`. -/
noncomputable def gBoundary : ℕ → ℝ := fun n => if n = 0 then 0 else 0.5

/-- On the constant-center stream the first iteration counts its point
inside the circle. -/
lemma countCircle_gHalf_one : countCircle gHalf 1 = 1 := by
  have hx : sampleX gHalf 0 = 0 := by norm_num [sampleX, gHalf]
  have hy : sampleY gHalf 0 = 0 := by norm_num [sampleY, gHalf]
  rw [countCircle, countCircle, hx, hy, if_pos]
  rw [show (0:ℝ) ^ 2 + (0:ℝ) ^ 2 = 0 by norm_num, Real.sqrt_zero]
  norm_num [radius]

/-- C1: for every positive trial count and every draw stream, the naive
`estimate_pi` returns exactly what the spec contract prescribes: 4 times
the fraction of the `nMC` sampled points lying within distance `radius`
of the origin. -/
theorem estimate_pi_meets_contract (nMC : ℕ) (g : ℕ → ℝ) (h : 0 < nMC) :
    (estimate_pi nMC g).value = some (spec_estimate nMC g) := by
  simp only [estimate_pi, spec_estimate, if_neg (Nat.pos_iff_ne_zero.mp h),
    countCircle_eq_specCount]

/-- C1 witness: at trial count 1 on the constant-center stream the naive
estimator meets the contract. -/
theorem estimate_pi_meets_contract_witness :
    0 < 1 ∧ (estimate_pi 1 gHalf).value = some (spec_estimate 1 gHalf) :=
  ⟨Nat.one_pos, estimate_pi_meets_contract 1 gHalf Nat.one_pos⟩

/-- C2: whenever `estimate_pi` returns a value, that value lies in the
closed interval `[0, 4]`, for every trial count and every draw stream. -/
theorem estimate_pi_in_zero_four (nMC : ℕ) (g : ℕ → ℝ) (v : ℝ)
    (h : (estimate_pi nMC g).value = some v) : 0 ≤ v ∧ v ≤ 4 := by
  by_cases h0 : nMC = 0
  · subst h0
    simp [estimate_pi] at h
  · have hv : v = 4 * (countCircle g nMC : ℝ) / nMC := by
      simp only [estimate_pi, if_neg h0, Option.some_inj] at h
      exact h.symm
    have hn : (0 : ℝ) < nMC := Nat.cast_pos.mpr (Nat.pos_of_ne_zero h0)
    have hc : (countCircle g nMC : ℝ) ≤ nMC := Nat.cast_le.mpr (countCircle_le g nMC)
    constructor
    · rw [hv]
      positivity
    · rw [hv, div_le_iff₀ hn]
      linarith

/-- C2 witness: at trial count 1 on the constant-center stream the value
returned is 4, which lies in `[0, 4]`. -/
theorem estimate_pi_in_zero_four_witness :
    (estimate_pi 1 gHalf).value = some 4 ∧ (0 : ℝ) ≤ 4 ∧ (4 : ℝ) ≤ 4 := by
  have h : (estimate_pi 1 gHalf).value = some 4 := by
    simp only [estimate_pi, countCircle_gHalf_one]
    norm_num
  exact ⟨h, estimate_pi_in_zero_four 1 gHalf 4 h⟩

/-- C7: on the same draw stream and any positive trial count, the
vectorized and the naive `estimate_pi` return the identical value,
namely `4 * (number of draws with sqrt(x^2+y^2) ≤ 1) / nMC`. -/
theorem estimate_pi_vec_eq_naive (nMC : ℕ) (g : ℕ → ℝ) (h : 0 < nMC) :
    (estimate_pi_vec nMC g).value = (estimate_pi nMC g).value ∧
      (estimate_pi nMC g).value = some (4 * (countSqrtLe nMC g : ℝ) / nMC) := by
  have h0 : nMC ≠ 0 := Nat.pos_iff_ne_zero.mp h
  constructor
  · simp only [estimate_pi_vec, estimate_pi, n_circle_vec_eq_countCircle]
  · simp only [estimate_pi, if_neg h0, countCircle_eq_countSqrtLe]

/-- C7 witness: at trial count 1 on the constant-center stream the two
implementations agree. -/
theorem estimate_pi_vec_eq_naive_witness :
    0 < 1 ∧ ((estimate_pi_vec 1 gHalf).value = (estimate_pi 1 gHalf).value ∧
      (estimate_pi 1 gHalf).value = some (4 * (countSqrtLe 1 gHalf : ℝ) / ((1 : ℕ) : ℝ))) :=
  ⟨Nat.one_pos, estimate_pi_vec_eq_naive 1 gHalf Nat.one_pos⟩

/-- C10: a sampled point lying exactly on the circle boundary
(`sqrt(x^2+y^2) = radius`) is counted as inside in every variant, because
each membership test uses the non-strict comparison `r <= radius`. -/
theorem boundary_point_counted_inside (g : ℕ → ℝ)
    (h : Real.sqrt (sampleX g 0 ^ 2 + sampleY g 0 ^ 2) = radius) :
    countCircle g 1 = 1 ∧ countCircleNumba g 1 = 1 ∧ n_circle_vec 1 g = 1 := by
  have hle : Real.sqrt (sampleX g 0 ^ 2 + sampleY g 0 ^ 2) ≤ radius := le_of_eq h
  refine ⟨?_, ?_, ?_⟩
  · rw [countCircle, countCircle, if_pos hle]
  · rw [countCircleNumba, countCircleNumba, if_pos hle]
  · rw [n_circle_vec_eq_countCircle, countCircle, countCircle, if_pos hle]

/-- C10 witness: the stream whose first point is `(-1, 0)` samples a point
at distance exactly `radius` from the origin, and every variant counts it
inside. -/
theorem boundary_point_counted_inside_witness :
    Real.sqrt (sampleX gBoundary 0 ^ 2 + sampleY gBoundary 0 ^ 2) = radius ∧
      (countCircle gBoundary 1 = 1 ∧ countCircleNumba gBoundary 1 = 1 ∧
        n_circle_vec 1 gBoundary = 1) := by
  have hx : sampleX gBoundary 0 = -1 := by
    norm_num [sampleX, gBoundary, diameter, radius]
  have hy : sampleY gBoundary 0 = 0 := by
    norm_num [sampleY, gBoundary, diameter, radius]
  have h : Real.sqrt (sampleX gBoundary 0 ^ 2 + sampleY gBoundary 0 ^ 2) = radius := by
    rw [hx, hy, show (-1 : ℝ) ^ 2 + (0 : ℝ) ^ 2 = 1 by norm_num, Real.sqrt_one]
    simp [radius]
  exact ⟨h, boundary_point_counted_inside gBoundary h⟩

/-- C3: when the π estimator is called with trial count `nMC = 0`, it does
not return a numeric estimate: the error branch of the final division
`4.*n_circle/nMC` is taken (Python raises `ZeroDivisionError`), for every
variant. -/
theorem estimate_pi_zero_trials_fails (g : ℕ → ℝ) :
    (estimate_pi 0 g).value = none ∧ (estimate_pi_vec 0 g).value = none ∧
      (estimate_pi_numba 0 g).value = none :=
  ⟨rfl, rfl, rfl⟩

/-- C4: for every state `(x, y, z)`, time `t` and parameters
`(sigma, rho, beta)`, the Lorenz field returns exactly the derivative
triple `(sigma*(y-x), x*(rho-z)-y, x*y-beta*z)`; the Julia in-place field
`f(du,u,p,t)` computes the same triple. Both are plain functions of their
arguments, hence deterministic and side-effect free. -/
theorem lorenz_formula (u : ℝ × ℝ × ℝ) (t : ℝ) (sigma rho beta : ℝ) :
    lorenz u t sigma rho beta =
        (sigma * (u.2.1 - u.1), u.1 * (rho - u.2.2) - u.2.1,
          u.1 * u.2.1 - beta * u.2.2) ∧
      juliaF u (sigma, rho, beta) t = lorenz u t sigma rho beta :=
  ⟨rfl, rfl⟩

/-- C5: the origin is a fixed point: for the state `(0, 0, 0)`, any time
and any parameters, the Lorenz field returns the zero derivative vector. -/
theorem lorenz_origin_fixed_point (t : ℝ) (sigma rho beta : ℝ) :
    lorenz (0, 0, 0) t sigma rho beta = (0, 0, 0) := by
  simp [lorenz]

/-- C6 counterexample: the Lorenz field is not additive in the parameter
triple for fixed state: at state `(1, 2, 3)` and parameters
`p₁ = p₂ = (0, 0, 0)` the two sides differ (the left side is `(0, -5, 2)`,
the right side `(0, -10, 4)`). -/
theorem lorenzP_param_additivity_fails :
    lorenzP (1, 2, 3) 0 ((0, 0, 0) + (0, 0, 0)) ≠
      lorenzP (1, 2, 3) 0 (0, 0, 0) + lorenzP (1, 2, 3) 0 (0, 0, 0) := by
  intro hEq
  rw [Prod.ext_iff, Prod.ext_iff] at hEq
  have h2 := hEq.2.1
  simp only [lorenzP, lorenz, Prod.mk_add_mk, Prod.snd, Prod.fst] at h2
  norm_num at h2

/-- C6 amended: for fixed state and time, the Lorenz field is affine in
the parameter triple: after subtracting the value at the zero parameter
triple it is linear — additive and homogeneous in `(sigma, rho, beta)`. -/
theorem lorenzP_affine_in_params (u : ℝ × ℝ × ℝ) (t : ℝ) (p q : ℝ × ℝ × ℝ) (c : ℝ) :
    lorenzP u t (p + q) - lorenzP u t (0, 0, 0) =
        (lorenzP u t p - lorenzP u t (0, 0, 0)) +
          (lorenzP u t q - lorenzP u t (0, 0, 0)) ∧
      lorenzP u t (c • p) - lorenzP u t (0, 0, 0) =
        c • (lorenzP u t p - lorenzP u t (0, 0, 0)) := by
  obtain ⟨x, y, z⟩ := u
  obtain ⟨s1, r1, b1⟩ := p
  obtain ⟨s2, r2, b2⟩ := q
  constructor <;>
    · simp only [lorenzP, lorenz, Prod.mk_add_mk, Prod.mk_sub_mk, Prod.smul_mk,
        Prod.ext_iff, smul_eq_mul]
      refine ⟨by ring, by ring, by ring⟩

/-- C8: the modelled ODE integration is deterministic: two invocations
with the same vector field, the same initial state, the same sample-time
grid and the same tolerances return identical trajectories. -/
theorem odeintModel_deterministic
    (f1 f2 : (ℝ × ℝ × ℝ) → ℝ → ℝ × ℝ × ℝ) (u1 u2 : ℝ × ℝ × ℝ)
    (g1 g2 : List ℝ) (r1 r2 a1 a2 : ℝ)
    (hf : f1 = f2) (hu : u1 = u2) (hg : g1 = g2) (hr : r1 = r2) (ha : a1 = a2) :
    odeintModel f1 u1 g1 r1 a1 = odeintModel f2 u2 g2 r2 a2 := by
  rw [hf, hu, hg, hr, ha]

/-- C8 witness: the concrete invocation of the notebook — the Lorenz field
with parameters `(10, 28, 8/3)`, initial state `(1, 0, 0)`, tolerances
`1e-8`, on a sample grid — run twice gives the same trajectory. -/
theorem odeintModel_deterministic_witness :
    odeintModel (fun u t => lorenzP u t (10, 28, 8 / 3)) (1, 0, 0) [0, 100]
        (1e-8) (1e-8) =
      odeintModel (fun u t => lorenzP u t (10, 28, 8 / 3)) (1, 0, 0) [0, 100]
        (1e-8) (1e-8) :=
  odeintModel_deterministic _ _ _ _ _ _ _ _ _ _ rfl rfl rfl rfl rfl

/-- C9: the vectorized variant prints the circle-hit count `n_circle` to
standard output on every call (it is the one value printed), while the
naive and numba variants print nothing. -/
theorem estimate_pi_vec_prints_n_circle (nMC : ℕ) (g : ℕ → ℝ) :
    (estimate_pi_vec nMC g).output = [n_circle_vec nMC g] ∧
      (estimate_pi nMC g).output = [] ∧ (estimate_pi_numba nMC g).output = [] :=
  ⟨rfl, rfl, rfl⟩

end PythonPerformance
